import Mathlib

/-!
Verification of the two import-rewriting maintenance scripts of this
repository (scripts/fix-imports.py and scripts/final-import-fix.py).

File contents are modelled as lists of characters.  Python's
`str.replace(old, new)` replaces every non-overlapping occurrence of `old`
scanning left to right; `re.sub` with the patterns used by
final-import-fix.py (literal text with a one-character quote class in two
places) behaves the same way on the finite set of literal variants of the
pattern.  Both are modelled by `replaceAllM`, which at each position either
replaces the first matching pattern of a list and skips past it, or copies
one character, scanning left to right.
-/

abbrev Str := List Char

/-- Python's `old in content` substring test, as an executable Bool. -/
def strOccursB (p s : Str) : Bool := s.tails.any fun t => p.isPrefixOf t

theorem strOccursB_iff {p s : Str} : strOccursB p s = true ↔ p <:+: s := by
  constructor
  · intro h
    rcases List.any_eq_true.mp h with ⟨t, ht, hpt⟩
    exact List.infix_iff_prefix_suffix.mpr
      ⟨t, List.isPrefixOf_iff_prefix.mp hpt, (List.mem_tails _ _).mp ht⟩
  · intro h
    rcases List.infix_iff_prefix_suffix.mp h with ⟨t, hpt, hts⟩
    exact List.any_eq_true.mpr
      ⟨t, (List.mem_tails _ _).mpr hts, List.isPrefixOf_iff_prefix.mpr hpt⟩

/-- First pattern of `ps` that is a (non-empty) prefix of `s`, if any. -/
def findPat (ps : List Str) (s : Str) : Option Str :=
  ps.find? fun p => !p.isEmpty && p.isPrefixOf s

theorem findPat_some {ps : List Str} {s p : Str} (h : findPat ps s = some p) :
    p ∈ ps ∧ p ≠ [] ∧ p <+: s := by
  refine ⟨List.mem_of_find?_eq_some h, ?_, ?_⟩
  · have hp := List.find?_some h
    have := (Bool.and_eq_true _ _).mp hp
    intro hnil
    rw [hnil] at this
    simpa using this.1
  · have hp := List.find?_some h
    exact List.isPrefixOf_iff_prefix.mp ((Bool.and_eq_true _ _).mp hp).2

theorem findPat_none {ps : List Str} {s p : Str} (h : findPat ps s = none)
    (hp : p ∈ ps) (hne : p ≠ []) : ¬ p <+: s := by
  intro hpre
  have := List.find?_eq_none.mp h p hp
  apply this
  simp [List.isPrefixOf_iff_prefix.mpr hpre, List.isEmpty_iff, hne]

/-- Left-to-right replace-all with fuel; `fuel ≥ s.length` makes it total
because every step consumes at least one character. -/
def replaceCore (ps : List Str) (r : Str) : Nat → Str → Str
  | 0, s => s
  | n + 1, s =>
    match findPat ps s with
    | some p => r ++ replaceCore ps r n (s.drop p.length)
    | none =>
      match s with
      | [] => []
      | c :: t => c :: replaceCore ps r n t

theorem replaceCore_zero {ps : List Str} {r s : Str} :
    replaceCore ps r 0 s = s := rfl

theorem replaceCore_succ_some {ps : List Str} {r s p : Str} {n : Nat}
    (h : findPat ps s = some p) :
    replaceCore ps r (n + 1) s = r ++ replaceCore ps r n (s.drop p.length) := by
  simp [replaceCore, h]

theorem replaceCore_succ_none_nil {ps : List Str} {r : Str} {n : Nat}
    (h : findPat ps ([] : Str) = none) :
    replaceCore ps r (n + 1) [] = [] := by
  simp [replaceCore, h]

theorem replaceCore_succ_none_cons {ps : List Str} {r t : Str} {c : Char} {n : Nat}
    (h : findPat ps (c :: t) = none) :
    replaceCore ps r (n + 1) (c :: t) = c :: replaceCore ps r n t := by
  simp [replaceCore, h]

/-- Model of one substitution pass: Python `content.replace(old, new)` is
`replaceAllM [old] new content`; one `re.sub(pat, repl, content)` call of
final-import-fix.py is `replaceAllM variants repl content` where `variants`
are the finitely many literal strings matched by the pattern. -/
def replaceAllM (ps : List Str) (r s : Str) : Str := replaceCore ps r s.length s

/-!
Decomposition lemmas: how an infix or prefix of a concatenation splits
across the concatenation boundary.
-/

theorem infix_append_cases {q a b : Str} (h : q <:+: a ++ b) :
    q <:+: a ∨ q <:+: b ∨
      ∃ x y, q = x ++ y ∧ x ≠ [] ∧ y ≠ [] ∧ x <:+ a ∧ y <+: b := by
  rcases h with ⟨x, y, hxy⟩
  rw [List.append_assoc] at hxy
  rcases List.append_eq_append_iff.mp hxy.symm with ⟨w, hw1, hw2⟩ | ⟨w, hw1, hw2⟩
  · right; left
    exact ⟨w, y, by rw [hw2, List.append_assoc]⟩
  · rcases List.append_eq_append_iff.mp hw2 with ⟨v, hv1, hv2⟩ | ⟨v, hv1, hv2⟩
    · left
      exact ⟨x, v, by rw [hw1, hv1, List.append_assoc]⟩
    · rcases eq_or_ne w [] with hwnil | hwne
      · right; left
        subst hwnil
        simp only [List.nil_append] at hv1
        exact (hv1 ▸ ⟨[], y, by rw [hv2, List.nil_append]⟩)
      · rcases eq_or_ne v [] with hvnil | hvne
        · left
          subst hvnil
          rw [List.append_nil] at hv1
          exact ⟨x, [], by rw [hw1, hv1, List.append_nil]⟩
        · right; right
          exact ⟨w, v, hv1, hwne, hvne, ⟨x, hw1.symm⟩, ⟨y, hv2.symm⟩⟩

theorem prefix_append_cases {y a b : Str} (h : y <+: a ++ b) :
    y <+: a ∨ ∃ z, y = a ++ z ∧ z <+: b := by
  rcases Nat.le_total y.length a.length with hle | hle
  · left
    exact List.prefix_of_prefix_length_le h (List.prefix_append a b) hle
  · right
    have ha : a <+: y := List.prefix_of_prefix_length_le (List.prefix_append a b) h hle
    rcases ha with ⟨z, hz⟩
    refine ⟨z, hz.symm, ?_⟩
    rcases h with ⟨t, ht⟩
    rw [← hz, List.append_assoc] at ht
    have := List.append_cancel_left ht
    exact ⟨t, this⟩

theorem infix_cons_split {q : Str} {c : Char} {t : Str} (h : q <:+: c :: t) :
    q <+: c :: t ∨ q <:+: t := List.infix_cons_iff.mp h

/-!
Conditions on a pattern/replacement pair under which a replacement pass can
never create a new occurrence of a pattern.  `Kcond p r` says: `p` does not
occur inside `r`; no proper non-empty prefix of `p` is a suffix of `r`; no
proper non-empty suffix of `p` is a prefix of `r`; and `r` does not occur
inside `p` except possibly at position 0.
-/

def Kcond (p r : Str) : Prop :=
  (¬ p <:+: r) ∧
  (∀ x y : Str, p = x ++ y → x ≠ [] → y ≠ [] → ¬ x <:+ r) ∧
  (∀ x y : Str, p = x ++ y → x ≠ [] → y ≠ [] → ¬ y <+: r) ∧
  (∀ x y : Str, p = x ++ y → x ≠ [] → y ≠ [] → ¬ r <+: y)

/-- Decidable version of `Kcond`, quantifying over split positions. -/
def KcondD (p r : Str) : Prop :=
  (¬ p <:+: r) ∧
  ∀ k, k < p.length → 0 < k →
    (¬ p.take k <:+ r) ∧ (¬ p.drop k <+: r) ∧ (¬ r <+: p.drop k)

theorem Kcond_of_D {p r : Str} (h : KcondD p r) : Kcond p r := by
  obtain ⟨h1, h2⟩ := h
  have key : ∀ x y : Str, p = x ++ y → x ≠ [] → y ≠ [] →
      x = p.take x.length ∧ y = p.drop x.length ∧
      x.length < p.length ∧ 0 < x.length := by
    intro x y hxy hx hy
    refine ⟨?_, ?_, ?_, List.length_pos.mpr hx⟩
    · rw [hxy, List.take_left]
    · rw [hxy, List.drop_left]
    · rw [hxy, List.length_append]
      have : 0 < y.length := List.length_pos.mpr hy
      omega
  refine ⟨h1, ?_, ?_, ?_⟩
  · intro x y hxy hx hy
    obtain ⟨hx2, _, hlt, hpos⟩ := key x y hxy hx hy
    rw [hx2]
    exact (h2 x.length hlt hpos).1
  · intro x y hxy hx hy
    obtain ⟨_, hy2, hlt, hpos⟩ := key x y hxy hx hy
    rw [hy2]
    exact (h2 x.length hlt hpos).2.1
  · intro x y hxy hx hy
    obtain ⟨_, hy2, hlt, hpos⟩ := key x y hxy hx hy
    rw [hy2]
    exact (h2 x.length hlt hpos).2.2

/-- If no pattern occurs in `s`, the pass leaves `s` unchanged. -/
theorem noop_aux (ps : List Str) (r : Str) :
    ∀ n s, s.length ≤ n → (∀ p ∈ ps, ¬ p <:+: s) →
      replaceCore ps r n s = s := by
  intro n
  induction n with
  | zero => intro s _ _; exact replaceCore_zero
  | succ n ih =>
    intro s hs h
    cases hf : findPat ps s with
    | some p =>
      obtain ⟨hmem, _, hpre⟩ := findPat_some hf
      exact absurd hpre.isInfix (h p hmem)
    | none =>
      cases s with
      | nil => exact replaceCore_succ_none_nil hf
      | cons c t =>
        rw [replaceCore_succ_none_cons hf]
        have ht : t.length ≤ n := by simpa using hs
        rw [ih t ht fun p hp hinf => h p hp (List.infix_cons hinf)]

/-- Core removal lemma: after one full replacement pass, none of the pass's
own patterns occurs in the output (part 1), and any proper non-empty suffix
of a pattern that is a prefix of the output was already a prefix of the
input (part 2, the strengthening that makes the induction go through). -/
theorem absent_aux (ps : List Str) (r : Str)
    (hps : ∀ p ∈ ps, p ≠ [] ∧ Kcond p r) :
    ∀ n s, s.length ≤ n →
      (∀ p ∈ ps, ¬ p <:+: replaceCore ps r n s) ∧
      (∀ p ∈ ps, ∀ x y : Str, p = x ++ y → x ≠ [] → y ≠ [] →
        y <+: replaceCore ps r n s → y <+: s) := by
  intro n
  induction n with
  | zero =>
    intro s hs
    have hs0 : s = [] := List.eq_nil_of_length_eq_zero (Nat.le_zero.mp hs)
    subst hs0
    rw [replaceCore_zero]
    constructor
    · intro p hp hinf
      exact (hps p hp).1 (List.infix_nil.mp hinf)
    · intro p hp x y _ _ hy hpre
      exact absurd (List.prefix_nil.mp hpre) hy
  | succ n ih =>
    intro s hs
    cases hf : findPat ps s with
    | some p0 =>
      obtain ⟨hp0mem, hp0ne, hp0pre⟩ := findPat_some hf
      rw [replaceCore_succ_some hf]
      have hlen : (s.drop p0.length).length ≤ n := by
        have h1 : 0 < p0.length := List.length_pos.mpr hp0ne
        have h2 : p0.length ≤ s.length := hp0pre.length_le
        rw [List.length_drop]
        omega
      obtain ⟨ihA, _⟩ := ih (s.drop p0.length) hlen
      constructor
      · intro p hp hinf
        rcases infix_append_cases hinf with h | h | ⟨x, y, hsplit, hx, hy, hxr, hyz⟩
        · exact (hps p hp).2.1 h
        · exact ihA p hp h
        · exact (hps p hp).2.2.1 x y hsplit hx hy hxr
      · intro p hp x y hxy hx hy hpre
        rcases prefix_append_cases hpre with h | ⟨z, hz, _⟩
        · exact absurd h ((hps p hp).2.2.2.1 x y hxy hx hy)
        · exact absurd ⟨z, hz.symm⟩ ((hps p hp).2.2.2.2 x y hxy hx hy)
    | none =>
      cases s with
      | nil =>
        rw [replaceCore_succ_none_nil hf]
        constructor
        · intro p hp hinf
          exact (hps p hp).1 (List.infix_nil.mp hinf)
        · intro p hp x y _ _ hy hpre
          exact absurd (List.prefix_nil.mp hpre) hy
      | cons c t =>
        rw [replaceCore_succ_none_cons hf]
        have ht : t.length ≤ n := by simpa using hs
        obtain ⟨ihA, ihB⟩ := ih t ht
        constructor
        · intro p hp hinf
          rcases infix_cons_split hinf with hpre | hinf2
          · cases p with
            | nil => exact (hps _ hp).1 rfl
            | cons d p2 =>
              obtain ⟨hdc, hp2⟩ := List.cons_prefix_cons.mp hpre
              subst hdc
              cases p2 with
              | nil =>
                exact findPat_none hf hp (hps _ hp).1 ⟨t, rfl⟩
              | cons e p3 =>
                have h3 : (e :: p3) <+: t :=
                  ihB _ hp [d] (e :: p3) rfl (by simp) (by simp) hp2
                exact findPat_none hf hp (hps _ hp).1
                  (List.cons_prefix_cons.mpr ⟨rfl, h3⟩)
          · exact ihA p hp hinf2
        · intro p hp x y hxy hx hy hpre
          cases y with
          | nil => exact absurd rfl hy
          | cons d y2 =>
            obtain ⟨hdc, hy2⟩ := List.cons_prefix_cons.mp hpre
            subst hdc
            cases y2 with
            | nil => exact List.cons_prefix_cons.mpr ⟨rfl, List.nil_prefix⟩
            | cons e y3 =>
              have hsplit2 : p = (x ++ [d]) ++ (e :: y3) := by
                rw [hxy]; simp
              have h3 : (e :: y3) <+: t :=
                ihB p hp (x ++ [d]) (e :: y3) hsplit2 (by simp) (by simp) hy2
              exact List.cons_prefix_cons.mpr ⟨rfl, h3⟩

/-- Core preservation lemma: a replacement pass cannot create a new
occurrence of a string `u` satisfying `Kcond u r` — any occurrence of `u`
in the output was already present in the input (and likewise for prefixes
that are proper suffixes of `u`). -/
theorem preserve_aux (ps : List Str) (r u : Str) (hu : Kcond u r) :
    ∀ n s, s.length ≤ n →
      (u <:+: replaceCore ps r n s → u <:+: s) ∧
      (∀ x y : Str, u = x ++ y → x ≠ [] → y ≠ [] →
        y <+: replaceCore ps r n s → y <+: s) := by
  intro n
  induction n with
  | zero =>
    intro s _
    rw [replaceCore_zero]
    exact ⟨id, fun _ _ _ _ _ h => h⟩
  | succ n ih =>
    intro s hs
    cases hf : findPat ps s with
    | some p0 =>
      obtain ⟨_, hp0ne, hp0pre⟩ := findPat_some hf
      rw [replaceCore_succ_some hf]
      have hlen : (s.drop p0.length).length ≤ n := by
        have h1 : 0 < p0.length := List.length_pos.mpr hp0ne
        have h2 : p0.length ≤ s.length := hp0pre.length_le
        rw [List.length_drop]
        omega
      obtain ⟨ihA, _⟩ := ih (s.drop p0.length) hlen
      constructor
      · intro hinf
        rcases infix_append_cases hinf with h | h | ⟨x, y, hsplit, hx, hy, hxr, _⟩
        · exact absurd h hu.1
        · exact ((ihA h).trans (List.drop_suffix _ _).isInfix)
        · exact absurd hxr (hu.2.1 x y hsplit hx hy)
      · intro x y hxy hx hy hpre
        rcases prefix_append_cases hpre with h | ⟨z, hz, _⟩
        · exact absurd h (hu.2.2.1 x y hxy hx hy)
        · exact absurd ⟨z, hz.symm⟩ (hu.2.2.2 x y hxy hx hy)
    | none =>
      cases s with
      | nil =>
        rw [replaceCore_succ_none_nil hf]
        exact ⟨id, fun _ _ _ _ _ h => h⟩
      | cons c t =>
        rw [replaceCore_succ_none_cons hf]
        have ht : t.length ≤ n := by simpa using hs
        obtain ⟨ihA, ihB⟩ := ih t ht
        constructor
        · intro hinf
          rcases infix_cons_split hinf with hpre | hinf2
          · cases hu2 : u with
            | nil => exact ⟨[], c :: t, rfl⟩
            | cons d u2 =>
              rw [hu2] at hpre
              obtain ⟨hdc, hpre2⟩ := List.cons_prefix_cons.mp hpre
              subst hdc
              cases u2 with
              | nil => exact (show (([d] : Str)) <+: d :: t from ⟨t, rfl⟩).isInfix
              | cons e u3 =>
                have h3 : (e :: u3) <+: t :=
                  ihB [d] (e :: u3) hu2 (by simp) (by simp) hpre2
                exact (List.cons_prefix_cons.mpr ⟨rfl, h3⟩).isInfix
          · exact List.infix_cons (ihA hinf2)
        · intro x y hxy hx hy hpre
          cases y with
          | nil => exact absurd rfl hy
          | cons d y2 =>
            obtain ⟨hdc, hy2⟩ := List.cons_prefix_cons.mp hpre
            subst hdc
            cases y2 with
            | nil => exact List.cons_prefix_cons.mpr ⟨rfl, List.nil_prefix⟩
            | cons e y3 =>
              have hsplit2 : u = (x ++ [d]) ++ (e :: y3) := by
                rw [hxy]; simp
              have h3 : (e :: y3) <+: t :=
                ihB (x ++ [d]) (e :: y3) hsplit2 (by simp) (by simp) hy2
              exact List.cons_prefix_cons.mpr ⟨rfl, h3⟩

/-!
A full pass of a script is a left fold of replacement steps over the
content.  `rulesOk` packages the conditions needed for idempotence: each
step's patterns are non-empty and satisfy `Kcond` against the step's own
replacement, and each step's patterns satisfy `Kcond` against the
replacement of every later step.
-/

def runRules (R : List (List Str × Str)) (s : Str) : Str :=
  R.foldl (fun c pr => replaceAllM pr.1 pr.2 c) s

theorem runRules_nil {s : Str} : runRules [] s = s := rfl

theorem runRules_cons {pr : List Str × Str} {R : List (List Str × Str)} {s : Str} :
    runRules (pr :: R) s = runRules R (replaceAllM pr.1 pr.2 s) := rfl

def rulesOk (R : List (List Str × Str)) : Prop :=
  (∀ pr ∈ R, ∀ p ∈ pr.1, p ≠ [] ∧ Kcond p pr.2) ∧
  R.Pairwise fun a b => ∀ p ∈ a.1, Kcond p b.2

def rulesOkD (R : List (List Str × Str)) : Prop :=
  (∀ pr ∈ R, ∀ p ∈ pr.1, p ≠ [] ∧ KcondD p pr.2) ∧
  R.Pairwise fun a b => ∀ p ∈ a.1, KcondD p b.2

theorem rulesOk_of_D {R : List (List Str × Str)} (h : rulesOkD R) : rulesOk R :=
  ⟨fun pr hpr p hp => ⟨(h.1 pr hpr p hp).1, Kcond_of_D (h.1 pr hpr p hp).2⟩,
   h.2.imp fun hab p hp => Kcond_of_D (hab p hp)⟩

theorem replaceAllM_absent {ps : List Str} {r : Str}
    (hps : ∀ p ∈ ps, p ≠ [] ∧ Kcond p r) {p : Str} (hp : p ∈ ps) (s : Str) :
    ¬ p <:+: replaceAllM ps r s :=
  (absent_aux ps r hps s.length s le_rfl).1 p hp

theorem replaceAllM_preserve {ps : List Str} {r u : Str} (hu : Kcond u r) {s : Str} :
    u <:+: replaceAllM ps r s → u <:+: s :=
  (preserve_aux ps r u hu s.length s le_rfl).1

theorem replaceAllM_noop {ps : List Str} {r s : Str}
    (h : ∀ p ∈ ps, ¬ p <:+: s) : replaceAllM ps r s = s :=
  noop_aux ps r s.length s le_rfl h

theorem runRules_preserve {R : List (List Str × Str)} {u : Str}
    (hu : ∀ pr ∈ R, Kcond u pr.2) :
    ∀ s, u <:+: runRules R s → u <:+: s := by
  induction R with
  | nil => intro s h; exact h
  | cons pr R ih =>
    intro s h
    rw [runRules_cons] at h
    exact replaceAllM_preserve (hu pr (List.mem_cons_self _ _))
      (ih (fun b hb => hu b (List.mem_cons_of_mem _ hb)) _ h)

theorem runRules_absent {R : List (List Str × Str)} (h : rulesOk R) (s : Str) :
    ∀ pr ∈ R, ∀ p ∈ pr.1, ¬ p <:+: runRules R s := by
  induction R generalizing s with
  | nil => intro pr hpr; exact absurd hpr (List.not_mem_nil _)
  | cons a R ih =>
    obtain ⟨hall, hpair⟩ := h
    obtain ⟨hhead, htail⟩ := List.pairwise_cons.mp hpair
    intro pr hpr p hp
    rcases List.mem_cons.mp hpr with hpra | hprR
    · subst hpra
      rw [runRules_cons]
      intro hocc
      have h1 : p <:+: replaceAllM pr.1 pr.2 s :=
        runRules_preserve (fun b hb => hhead b hb p hp) _ hocc
      exact replaceAllM_absent (hall pr (List.mem_cons_self _ _)) hp s h1
    · rw [runRules_cons]
      exact ih ⟨fun b hb => hall b (List.mem_cons_of_mem _ hb), htail⟩ _ pr hprR p hp

theorem runRules_noop {R : List (List Str × Str)} {s : Str}
    (h : ∀ pr ∈ R, ∀ p ∈ pr.1, ¬ p <:+: s) : runRules R s = s := by
  induction R with
  | nil => rfl
  | cons a R ih =>
    rw [runRules_cons, replaceAllM_noop (h a (List.mem_cons_self _ _))]
    exact ih fun pr hpr => h pr (List.mem_cons_of_mem _ hpr)

/-- Idempotence of a full pass, under the `rulesOk` conditions. -/
theorem runRules_idem {R : List (List Str × Str)} (h : rulesOk R) (s : Str) :
    runRules R (runRules R s) = runRules R s :=
  runRules_noop fun pr hpr p hp => runRules_absent h s pr hpr p hp

/-!
The changes-made flag of fix-imports.py: the script tracks, alongside the
content, whether any step's pattern was present in the content at the time
the step ran, and writes the file back exactly when that flag is set.
-/

def runFlag : List (List Str × Str) → Str × Bool → Str × Bool
  | [], st => st
  | pr :: R, st =>
    runFlag R (replaceAllM pr.1 pr.2 st.1, st.2 || pr.1.any fun p => strOccursB p st.1)

theorem runFlag_fst {R : List (List Str × Str)} :
    ∀ c m, (runFlag R (c, m)).1 = runRules R c := by
  induction R with
  | nil => intro c m; rfl
  | cons pr R ih =>
    intro c m
    rw [runFlag, runRules_cons]
    exact ih _ _

theorem runFlag_noop {R : List (List Str × Str)} :
    ∀ c m, (∀ pr ∈ R, ∀ p ∈ pr.1, ¬ p <:+: c) → runFlag R (c, m) = (c, m) := by
  induction R with
  | nil => intro c m _; rfl
  | cons pr R ih =>
    intro c m h
    rw [runFlag]
    have hany : (pr.1.any fun p => strOccursB p c) = false := by
      rw [List.any_eq_false]
      intro p hp
      intro hb
      exact h pr (List.mem_cons_self _ _) p hp (strOccursB_iff.mp hb)
    rw [replaceAllM_noop (h pr (List.mem_cons_self _ _)), hany, Bool.or_false]
    exact ih c m fun b hb p hp => h b (List.mem_cons_of_mem _ hb) p hp

/-- If the changes-made flag comes out true, the final content differs from
the original: the pass leaves no pattern occurrence in its output, so a run
that returns its input unchanged can never have seen a pattern. -/
theorem runFlag_changed {R : List (List Str × Str)} (h : rulesOk R) {c : Str}
    (hc : (runFlag R (c, false)).2 = true) : runRules R c ≠ c := by
  intro heq
  have habs : ∀ pr ∈ R, ∀ p ∈ pr.1, ¬ p <:+: c := by
    intro pr hpr p hp
    have := runRules_absent h c pr hpr p hp
    rwa [heq] at this
  rw [runFlag_noop c false habs] at hc
  simp at hc

/-!
Concrete rule tables, transcribed from the source.

fix-imports.py iterates over IMPORT_MAP in insertion order; for each entry
it builds the two literal patterns `from '{old}'` and `from "{old}"` and
replaces each (in that order) by the same-quote-style new path, guarded by
a substring test.  final-import-fix.py applies `re.sub` for each FIXES
entry in order; each regex matches the literal text with independently
chosen opening and closing quotes, and every match is replaced by the
single-quoted replacement string.
-/

/-- Single-quote character (written via its code point to keep source
literals free of quote characters). -/
def qS : Char := Char.ofNat 39

/-- Double-quote character. -/
def qD : Char := Char.ofNat 34

/-- The literal string `from <q>path<q>`. -/
def impStr (q : Char) (path : String) : Str :=
  ("from ").data ++ q :: path.data ++ [q]

/-- The literal string `from <q1>path<q2>` (final-import-fix.py's regexes
allow the two quotes to differ). -/
def impStr2 (q1 q2 : Char) (path : String) : Str :=
  ("from ").data ++ q1 :: path.data ++ [q2]

/-- IMPORT_MAP of scripts/fix-imports.py, in source (insertion) order. -/
def IMPORT_MAP : List (String × String) :=
  [(("@/lib/feed-cache"), ("@/lib/caching/feed-cache")),
   (("@/lib/program-registry"), ("@/lib/solana/program-registry")),
   (("@/lib/program-activity"), ("@/lib/solana/program-activity")),
   (("@/lib/solana-connection-client"), ("@/lib/solana/solana-connection-client")),
   (("@/lib/solana-connection-server"), ("@/lib/solana/solana-connection-server")),
   (("@/lib/logger"), ("@/lib/logging/logger")),
   (("@/lib/ai-service-client"), ("@/lib/ai/ai-service-client")),
   (("@/lib/graph-state-cache"), ("@/lib/caching/graph-state-cache")),
   (("@/lib/anomaly-patterns"), ("@/lib/analytics/anomaly-patterns")),
   (("@/lib/configurable-anomaly-patterns"), ("@/lib/analytics/configurable-anomaly-patterns")),
   (("@/lib/sse-manager"), ("@/lib/api/sse-manager")),
   (("@/lib/rate-limit"), ("@/lib/api/rate-limit")),
   (("@/lib/rate-limiter-tiers"), ("@/lib/api/rate-limiter-tiers")),
   (("@/lib/moralis-api"), ("@/lib/external-apis/moralis-api")),
   (("@/lib/transaction-constants"), ("@/lib/blockchain/transaction-constants")),
   (("./solana-connection-client"), ("./solana/solana-connection-client")),
   (("./opensvm-rpc"), ("./solana/rpc/opensvm-rpc")),
   (("./rate-limit"), ("./api/rate-limit")),
   (("./logger"), ("./logging/logger")),
   (("./user-history-utils"), ("./user/user-history-utils")),
   (("./user/user-history-utils"), ("../user/user-history-utils"))]

/-- The 42 sequential replacement steps of one fix_imports_in_file pass:
for each IMPORT_MAP entry, first the single-quote replace, then the
double-quote replace. -/
def steps1 : List (List Str × Str) :=
  IMPORT_MAP.flatMap fun en =>
    [([impStr qS en.1], impStr qS en.2), ([impStr qD en.1], impStr qD en.2)]

/-- FIXES of scripts/final-import-fix.py, in source order (regex escapes
removed: the patterns match the literal text with a quote class at each
end). -/
def FIXES : List (String × String) :=
  [(("../../../lib/solana-connection-server"), ("@/lib/solana/solana-connection-server")),
   (("../../../../lib/auth-server"), ("@/lib/api-auth/auth-server")),
   (("../../../../../lib/qdrant"), ("@/lib/search/qdrant")),
   (("../../../../lib/qdrant-search-suggestions"), ("@/lib/search/qdrant-search-suggestions")),
   (("@/lib/program-metadata-cache"), ("@/lib/solana/program-metadata-cache"))]

/-- The 5 re.sub steps of one fix_file pass; each regex matches four
literal quote-combination variants and always substitutes the
single-quoted replacement. -/
def steps2 : List (List Str × Str) :=
  FIXES.map fun en =>
    ([impStr2 qS qS en.1, impStr2 qS qD en.1, impStr2 qD qS en.1, impStr2 qD qD en.1],
     impStr qS en.2)

/-!
Executable versions of the `Kcond` checks, used to verify the concrete rule
tables by evaluation.
-/

def KcondB (u r : Str) : Bool :=
  !(strOccursB u r) &&
  (r.tails.all fun t => !(t.isPrefixOf u && decide (t.length < u.length) && !t.isEmpty)) &&
  (u.tails.all fun t => !(t.isPrefixOf r && decide (t.length < u.length) && !t.isEmpty)) &&
  (u.tail.tails.all fun t => !(r.isPrefixOf t))

theorem KcondB_sound {u r : Str} (h : KcondB u r = true) : KcondD u r := by
  unfold KcondB at h
  simp only [Bool.and_eq_true] at h
  obtain ⟨⟨⟨h1, h2⟩, h3⟩, h4⟩ := h
  constructor
  · intro hinf
    rw [Bool.not_eq_true', ← Bool.not_eq_true] at h1
    exact h1 (strOccursB_iff.mpr hinf)
  · intro k hk hk0
    have hupos : 0 < u.length := Nat.lt_of_le_of_lt (Nat.zero_le k) hk
    refine ⟨?_, ?_, ?_⟩
    · intro hsuf
      have hmem : u.take k ∈ r.tails := (List.mem_tails _ _).mpr hsuf
      have hall := List.all_eq_true.mp h2 _ hmem
      have hlen : (u.take k).length = k := by
        rw [List.length_take]
        omega
      rw [Bool.not_eq_true', Bool.and_eq_false_iff, Bool.and_eq_false_iff] at hall
      rcases hall with (ha | hb) | hc
      · rw [← Bool.not_eq_true] at ha
        exact ha (List.isPrefixOf_iff_prefix.mpr (List.take_prefix k u))
      · rw [decide_eq_false_iff_not] at hb
        exact hb (by omega)
      · rw [Bool.not_eq_false', List.isEmpty_iff] at hc
        have h0 : (u.take k).length = 0 := by rw [hc]; rfl
        omega
    · intro hpre
      have hmem : u.drop k ∈ u.tails := (List.mem_tails _ _).mpr (List.drop_suffix k u)
      have hall := List.all_eq_true.mp h3 _ hmem
      have hlen : (u.drop k).length = u.length - k := List.length_drop k u
      rw [Bool.not_eq_true', Bool.and_eq_false_iff, Bool.and_eq_false_iff] at hall
      rcases hall with (ha | hb) | hc
      · rw [← Bool.not_eq_true] at ha
        exact ha (List.isPrefixOf_iff_prefix.mpr hpre)
      · rw [decide_eq_false_iff_not] at hb
        exact hb (by omega)
      · rw [Bool.not_eq_false', List.isEmpty_iff] at hc
        have h0 : (u.drop k).length = 0 := by rw [hc]; rfl
        omega
    · intro hpre
      have hdrop : u.drop k = u.tail.drop (k - 1) := by
        rw [← List.drop_one, List.drop_drop]
        congr 1
        omega
      have hmem : u.tail.drop (k - 1) ∈ u.tail.tails :=
        (List.mem_tails _ _).mpr (List.drop_suffix _ u.tail)
      have hall := List.all_eq_true.mp h4 _ hmem
      rw [Bool.not_eq_true'] at hall
      rw [← Bool.not_eq_true] at hall
      rw [hdrop] at hpre
      exact hall (List.isPrefixOf_iff_prefix.mpr hpre)

/-- Executable check of the `rulesOk` conditions for a concrete rule table. -/
def rulesOkB : List (List Str × Str) → Bool
  | [] => true
  | pr :: R =>
    (pr.1.all fun p => !p.isEmpty && KcondB p pr.2 && R.all fun b => KcondB p b.2) &&
    rulesOkB R

theorem rulesOkB_sound : ∀ {R : List (List Str × Str)}, rulesOkB R = true → rulesOk R := by
  intro R
  induction R with
  | nil => intro _; exact ⟨fun _ hpr => absurd hpr (List.not_mem_nil _), List.Pairwise.nil⟩
  | cons pr R ih =>
    intro h
    rw [rulesOkB, Bool.and_eq_true] at h
    obtain ⟨hhead, htail⟩ := h
    have hh := List.all_eq_true.mp hhead
    obtain ⟨ih1, ih2⟩ := ih htail
    constructor
    · intro b hb p hp
      rcases List.mem_cons.mp hb with hb1 | hb2
      · subst hb1
        have := hh p hp
        rw [Bool.and_eq_true, Bool.and_eq_true] at this
        refine ⟨?_, Kcond_of_D (KcondB_sound this.1.2)⟩
        have h0 := this.1.1
        rw [Bool.not_eq_true'] at h0
        intro hnil
        rw [hnil] at h0
        simp at h0
      · exact ih1 b hb2 p hp
    · rw [List.pairwise_cons]
      refine ⟨?_, ih2⟩
      intro b hb p hp
      have := hh p hp
      rw [Bool.and_eq_true, Bool.and_eq_true] at this
      exact Kcond_of_D (KcondB_sound (List.all_eq_true.mp this.2 b hb))

/-- Check of one rule against its own replacement and all later
replacements (the head conjunct of `rulesOkB`). -/
def headB (pr : List Str × Str) (R : List (List Str × Str)) : Bool :=
  pr.1.all fun p => !p.isEmpty && KcondB p pr.2 && R.all fun b => KcondB p b.2

theorem rulesOk_nil : rulesOk ([] : List (List Str × Str)) :=
  ⟨fun _ hpr => absurd hpr (List.not_mem_nil _), List.Pairwise.nil⟩

theorem rulesOk_cons {pr : List Str × Str} {R : List (List Str × Str)}
    (h1 : headB pr R = true) (h2 : rulesOk R) : rulesOk (pr :: R) := by
  have hh := List.all_eq_true.mp h1
  obtain ⟨ih1, ih2⟩ := h2
  constructor
  · intro b hb p hp
    rcases List.mem_cons.mp hb with hb1 | hb2
    · subst hb1
      have := hh p hp
      rw [Bool.and_eq_true, Bool.and_eq_true] at this
      refine ⟨?_, Kcond_of_D (KcondB_sound this.1.2)⟩
      have h0 := this.1.1
      rw [Bool.not_eq_true'] at h0
      intro hnil
      rw [hnil] at h0
      simp at h0
    · exact ih1 b hb2 p hp
  · rw [List.pairwise_cons]
    refine ⟨?_, ih2⟩
    intro b hb p hp
    have := hh p hp
    rw [Bool.and_eq_true, Bool.and_eq_true] at this
    exact Kcond_of_D (KcondB_sound (List.all_eq_true.mp this.2 b hb))

theorem rulesOk_drop_succ {R : List (List Str × Str)} {i : Nat} (hlt : i < R.length)
    (h1 : headB (R[i]) (R.drop (i + 1)) = true)
    (h2 : rulesOk (R.drop (i + 1))) : rulesOk (R.drop i) := by
  rw [List.drop_eq_getElem_cons hlt]
  exact rulesOk_cons h1 h2

theorem steps1_okT42 : rulesOk (steps1.drop 42) := by
  rw [show steps1.drop 42 = [] from by decide]
  exact rulesOk_nil

set_option maxHeartbeats 4000000 in
theorem steps1_okT41 : rulesOk (steps1.drop 41) :=
  rulesOk_drop_succ (by decide) (by decide) steps1_okT42

set_option maxHeartbeats 4000000 in
theorem steps1_okT40 : rulesOk (steps1.drop 40) :=
  rulesOk_drop_succ (by decide) (by decide) steps1_okT41

set_option maxHeartbeats 4000000 in
theorem steps1_okT39 : rulesOk (steps1.drop 39) :=
  rulesOk_drop_succ (by decide) (by decide) steps1_okT40

set_option maxHeartbeats 4000000 in
theorem steps1_okT38 : rulesOk (steps1.drop 38) :=
  rulesOk_drop_succ (by decide) (by decide) steps1_okT39

set_option maxHeartbeats 4000000 in
theorem steps1_okT37 : rulesOk (steps1.drop 37) :=
  rulesOk_drop_succ (by decide) (by decide) steps1_okT38

set_option maxHeartbeats 4000000 in
theorem steps1_okT36 : rulesOk (steps1.drop 36) :=
  rulesOk_drop_succ (by decide) (by decide) steps1_okT37

set_option maxHeartbeats 4000000 in
theorem steps1_okT35 : rulesOk (steps1.drop 35) :=
  rulesOk_drop_succ (by decide) (by decide) steps1_okT36

set_option maxHeartbeats 4000000 in
theorem steps1_okT34 : rulesOk (steps1.drop 34) :=
  rulesOk_drop_succ (by decide) (by decide) steps1_okT35

set_option maxHeartbeats 4000000 in
theorem steps1_okT33 : rulesOk (steps1.drop 33) :=
  rulesOk_drop_succ (by decide) (by decide) steps1_okT34

set_option maxHeartbeats 4000000 in
theorem steps1_okT32 : rulesOk (steps1.drop 32) :=
  rulesOk_drop_succ (by decide) (by decide) steps1_okT33

set_option maxHeartbeats 4000000 in
theorem steps1_okT31 : rulesOk (steps1.drop 31) :=
  rulesOk_drop_succ (by decide) (by decide) steps1_okT32

set_option maxHeartbeats 4000000 in
theorem steps1_okT30 : rulesOk (steps1.drop 30) :=
  rulesOk_drop_succ (by decide) (by decide) steps1_okT31

set_option maxHeartbeats 4000000 in
theorem steps1_okT29 : rulesOk (steps1.drop 29) :=
  rulesOk_drop_succ (by decide) (by decide) steps1_okT30

set_option maxHeartbeats 4000000 in
theorem steps1_okT28 : rulesOk (steps1.drop 28) :=
  rulesOk_drop_succ (by decide) (by decide) steps1_okT29

set_option maxHeartbeats 4000000 in
theorem steps1_okT27 : rulesOk (steps1.drop 27) :=
  rulesOk_drop_succ (by decide) (by decide) steps1_okT28

set_option maxHeartbeats 4000000 in
theorem steps1_okT26 : rulesOk (steps1.drop 26) :=
  rulesOk_drop_succ (by decide) (by decide) steps1_okT27

set_option maxHeartbeats 4000000 in
theorem steps1_okT25 : rulesOk (steps1.drop 25) :=
  rulesOk_drop_succ (by decide) (by decide) steps1_okT26

set_option maxHeartbeats 4000000 in
theorem steps1_okT24 : rulesOk (steps1.drop 24) :=
  rulesOk_drop_succ (by decide) (by decide) steps1_okT25

set_option maxHeartbeats 4000000 in
theorem steps1_okT23 : rulesOk (steps1.drop 23) :=
  rulesOk_drop_succ (by decide) (by decide) steps1_okT24

set_option maxHeartbeats 4000000 in
theorem steps1_okT22 : rulesOk (steps1.drop 22) :=
  rulesOk_drop_succ (by decide) (by decide) steps1_okT23

set_option maxHeartbeats 4000000 in
theorem steps1_okT21 : rulesOk (steps1.drop 21) :=
  rulesOk_drop_succ (by decide) (by decide) steps1_okT22

set_option maxHeartbeats 4000000 in
theorem steps1_okT20 : rulesOk (steps1.drop 20) :=
  rulesOk_drop_succ (by decide) (by decide) steps1_okT21

set_option maxHeartbeats 4000000 in
theorem steps1_okT19 : rulesOk (steps1.drop 19) :=
  rulesOk_drop_succ (by decide) (by decide) steps1_okT20

set_option maxHeartbeats 4000000 in
theorem steps1_okT18 : rulesOk (steps1.drop 18) :=
  rulesOk_drop_succ (by decide) (by decide) steps1_okT19

set_option maxHeartbeats 4000000 in
theorem steps1_okT17 : rulesOk (steps1.drop 17) :=
  rulesOk_drop_succ (by decide) (by decide) steps1_okT18

set_option maxHeartbeats 4000000 in
theorem steps1_okT16 : rulesOk (steps1.drop 16) :=
  rulesOk_drop_succ (by decide) (by decide) steps1_okT17

set_option maxHeartbeats 4000000 in
theorem steps1_okT15 : rulesOk (steps1.drop 15) :=
  rulesOk_drop_succ (by decide) (by decide) steps1_okT16

set_option maxHeartbeats 4000000 in
theorem steps1_okT14 : rulesOk (steps1.drop 14) :=
  rulesOk_drop_succ (by decide) (by decide) steps1_okT15

set_option maxHeartbeats 4000000 in
theorem steps1_okT13 : rulesOk (steps1.drop 13) :=
  rulesOk_drop_succ (by decide) (by decide) steps1_okT14

set_option maxHeartbeats 4000000 in
theorem steps1_okT12 : rulesOk (steps1.drop 12) :=
  rulesOk_drop_succ (by decide) (by decide) steps1_okT13

set_option maxHeartbeats 4000000 in
theorem steps1_okT11 : rulesOk (steps1.drop 11) :=
  rulesOk_drop_succ (by decide) (by decide) steps1_okT12

set_option maxHeartbeats 4000000 in
theorem steps1_okT10 : rulesOk (steps1.drop 10) :=
  rulesOk_drop_succ (by decide) (by decide) steps1_okT11

set_option maxHeartbeats 4000000 in
theorem steps1_okT9 : rulesOk (steps1.drop 9) :=
  rulesOk_drop_succ (by decide) (by decide) steps1_okT10

set_option maxHeartbeats 4000000 in
theorem steps1_okT8 : rulesOk (steps1.drop 8) :=
  rulesOk_drop_succ (by decide) (by decide) steps1_okT9

set_option maxHeartbeats 4000000 in
theorem steps1_okT7 : rulesOk (steps1.drop 7) :=
  rulesOk_drop_succ (by decide) (by decide) steps1_okT8

set_option maxHeartbeats 4000000 in
theorem steps1_okT6 : rulesOk (steps1.drop 6) :=
  rulesOk_drop_succ (by decide) (by decide) steps1_okT7

set_option maxHeartbeats 4000000 in
theorem steps1_okT5 : rulesOk (steps1.drop 5) :=
  rulesOk_drop_succ (by decide) (by decide) steps1_okT6

set_option maxHeartbeats 4000000 in
theorem steps1_okT4 : rulesOk (steps1.drop 4) :=
  rulesOk_drop_succ (by decide) (by decide) steps1_okT5

set_option maxHeartbeats 4000000 in
theorem steps1_okT3 : rulesOk (steps1.drop 3) :=
  rulesOk_drop_succ (by decide) (by decide) steps1_okT4

set_option maxHeartbeats 4000000 in
theorem steps1_okT2 : rulesOk (steps1.drop 2) :=
  rulesOk_drop_succ (by decide) (by decide) steps1_okT3

set_option maxHeartbeats 4000000 in
theorem steps1_okT1 : rulesOk (steps1.drop 1) :=
  rulesOk_drop_succ (by decide) (by decide) steps1_okT2

set_option maxHeartbeats 4000000 in
theorem steps1_okT0 : rulesOk (steps1.drop 0) :=
  rulesOk_drop_succ (by decide) (by decide) steps1_okT1

theorem steps1_ok : rulesOk steps1 := by
  have h := steps1_okT0
  rwa [List.drop_zero] at h

set_option maxHeartbeats 4000000 in
theorem steps2_ok : rulesOk steps2 := rulesOkB_sound (by decide)

/-- The claim of idempotence, per claim C1: one full substitution pass of
either script applied to its own output returns it unchanged. -/
theorem C1_rewrite_idempotent (c : Str) :
    runRules steps1 (runRules steps1 c) = runRules steps1 c ∧
    runRules steps2 (runRules steps2 c) = runRules steps2 c :=
  ⟨runRules_idem steps1_ok c, runRules_idem steps2_ok c⟩

/-!
Per-file processing and the main traversal of each script.

A file's readable state is either its content or an error: the `err` case
models any exception raised while reading or writing that file (permission
error, encoding error, concurrent deletion).  Both scripts wrap the whole
read/substitute/write body of the per-file function in try/except, print an
error message for that file and return False, so the surrounding loop in
main continues with the next file.  Neither script ever calls sys.exit, so
the process always ends main normally with exit code 0.
-/

inductive ReadState where
  | ok : Str → ReadState
  | err : Str → ReadState
deriving DecidableEq

/-- Observable outcome of processing one file: the file's state afterwards,
whether it was written back, whether main prints it in the fixed-file list,
and whether the per-file handler printed an error line for it. -/
structure FileOutcome where
  after : ReadState
  wrote : Bool
  reportedFixed : Bool
  reportedError : Bool
deriving DecidableEq

/-- fix_imports_in_file of scripts/fix-imports.py: run all IMPORT_MAP
substitutions, write back and return True exactly when the changes-made
flag was set; on an exception, print the error and return False. -/
def fixImportsInFile : ReadState → FileOutcome
  | ReadState.err m => ⟨ReadState.err m, false, false, true⟩
  | ReadState.ok c =>
    let st := runFlag steps1 (c, false)
    ⟨ReadState.ok (if st.2 then st.1 else c), st.2, st.2, false⟩

/-- fix_file of scripts/final-import-fix.py: run all FIXES substitutions,
write back and return True exactly when the content changed; on an
exception, print the error and return False. -/
def fixFile : ReadState → FileOutcome
  | ReadState.err m => ⟨ReadState.err m, false, false, true⟩
  | ReadState.ok c =>
    let c2 := runRules steps2 c
    if c2 ≠ c then ⟨ReadState.ok c2, true, true, false⟩
    else ⟨ReadState.ok c, false, false, false⟩

/-- Result of a whole run of either script's main: the processed files, the
printed fixed-file list, the inline error lines, the final summary counts
and line, and the process exit code. -/
structure RunResult where
  outcomes : List (Str × FileOutcome)
  fixedPaths : List Str
  errorPaths : List Str
  fixedCount : Nat
  totalCount : Nat
  summary : String
  exitCode : Nat
deriving DecidableEq

/-- The final print of fix-imports.py: `Complete! Fixed {f}/{t} files`. -/
def summaryLine1 (fixed total : Nat) : String :=
  ("Complete! Fixed ") ++ toString fixed ++ ("/") ++ toString total ++ (" files")

/-- The final print of final-import-fix.py: `Fixed {f} files`. -/
def summaryLine2 (fixed : Nat) : String :=
  ("Fixed ") ++ toString fixed ++ (" files")

/-- main of scripts/fix-imports.py, over the list of traversed files
(path together with readable state).  It processes every file in order,
counts fixed files and total files, prints fixed paths as it goes, and
ends with the summary line; it never exits with a non-zero code. -/
def script1Main (files : List (Str × ReadState)) : RunResult :=
  let outs := files.map fun f => (f.1, fixImportsInFile f.2)
  let fixed := outs.filter fun en => en.2.reportedFixed
  let errs := outs.filter fun en => en.2.reportedError
  { outcomes := outs
    fixedPaths := fixed.map fun en => en.1
    errorPaths := errs.map fun en => en.1
    fixedCount := fixed.length
    totalCount := files.length
    summary := summaryLine1 fixed.length files.length
    exitCode := 0 }

/-- The skip test of final-import-fix.py's main:
`'node_modules' in str(filepath) or '.next' in str(filepath)`. -/
def excludedPath (path : Str) : Bool :=
  strOccursB (("node_modules").data) path || strOccursB ((".next").data) path

/-- One loop iteration of final-import-fix.py's main: excluded paths are
skipped before any read or write; all other files go through fix_file. -/
def script2Entry (f : Str × ReadState) : Str × FileOutcome :=
  if excludedPath f.1 then (f.1, ⟨f.2, false, false, false⟩) else (f.1, fixFile f.2)

/-- main of scripts/final-import-fix.py over the traversed files. -/
def script2Main (files : List (Str × ReadState)) : RunResult :=
  let outs := files.map script2Entry
  let fixed := outs.filter fun en => en.2.reportedFixed
  let errs := outs.filter fun en => en.2.reportedError
  { outcomes := outs
    fixedPaths := fixed.map fun en => en.1
    errorPaths := errs.map fun en => en.1
    fixedCount := fixed.length
    totalCount := files.length
    summary := summaryLine2 fixed.length
    exitCode := 0 }

/-- Content matches none of a table's patterns. -/
def patternFreeFor (R : List (List Str × Str)) (c : Str) : Prop :=
  ∀ pr ∈ R, ∀ p ∈ pr.1, ¬ p <:+: c

instance (R : List (List Str × Str)) (c : Str) : Decidable (patternFreeFor R c) := by
  unfold patternFreeFor
  exact inferInstance

theorem mem_fixedPaths1 {files : List (Str × ReadState)} {path : Str} :
    path ∈ (script1Main files).fixedPaths ↔
      ∃ st, (path, st) ∈ files ∧ (fixImportsInFile st).reportedFixed = true := by
  simp only [script1Main, List.mem_map, List.mem_filter]
  constructor
  · rintro ⟨en, ⟨⟨f, hf, rfl⟩, hfix⟩, rfl⟩
    exact ⟨f.2, by simpa using hf, hfix⟩
  · rintro ⟨st, hmem, hfix⟩
    exact ⟨(path, fixImportsInFile st), ⟨⟨(path, st), hmem, rfl⟩, hfix⟩, rfl⟩

theorem script2Entry_fst (f : Str × ReadState) : (script2Entry f).1 = f.1 := by
  by_cases hex : excludedPath f.1
  · simp [script2Entry, hex]
  · simp [script2Entry, hex]

theorem mem_fixedPaths2 {files : List (Str × ReadState)} {path : Str} :
    path ∈ (script2Main files).fixedPaths ↔
      ∃ st, (path, st) ∈ files ∧ (script2Entry (path, st)).2.reportedFixed = true := by
  simp only [script2Main, List.mem_map, List.mem_filter]
  constructor
  · rintro ⟨en, ⟨⟨f, hf, rfl⟩, hfix⟩, hpath⟩
    rw [script2Entry_fst] at hpath
    have hfeq : f = (path, f.2) := by
      rw [← hpath]
    rw [hfeq] at hf hfix
    exact ⟨f.2, hf, hfix⟩
  · rintro ⟨st, hmem, hfix⟩
    exact ⟨script2Entry (path, st), ⟨⟨(path, st), hmem, rfl⟩, hfix⟩, script2Entry_fst _⟩

theorem fixImportsInFile_ok_def (c : Str) :
    fixImportsInFile (ReadState.ok c) =
      ⟨ReadState.ok (if (runFlag steps1 (c, false)).2 then (runFlag steps1 (c, false)).1 else c),
       (runFlag steps1 (c, false)).2, (runFlag steps1 (c, false)).2, false⟩ := rfl

theorem fixFile_ok_def (c : Str) :
    fixFile (ReadState.ok c) =
      if runRules steps2 c ≠ c then
        ⟨ReadState.ok (runRules steps2 c), true, true, false⟩
      else ⟨ReadState.ok c, false, false, false⟩ := rfl

theorem fixImportsInFile_noop {c : Str} (h : patternFreeFor steps1 c) :
    fixImportsInFile (ReadState.ok c) =
      ⟨ReadState.ok c, false, false, false⟩ := by
  rw [fixImportsInFile_ok_def, runFlag_noop c false h]
  simp

theorem fixFile_noop {c : Str} (h : patternFreeFor steps2 c) :
    fixFile (ReadState.ok c) = ⟨ReadState.ok c, false, false, false⟩ := by
  rw [fixFile_ok_def, runRules_noop h]
  simp

theorem fixImportsInFile_wrote {st : ReadState}
    (h : (fixImportsInFile st).wrote = true) : (fixImportsInFile st).after ≠ st := by
  cases st with
  | err m => simp [fixImportsInFile] at h
  | ok c =>
    rw [fixImportsInFile_ok_def] at h ⊢
    simp only at h
    rw [h]
    simp only [if_true]
    intro hcontra
    have h1 : (runFlag steps1 (c, false)).1 = c := by
      injection hcontra
    rw [runFlag_fst] at h1
    exact runFlag_changed steps1_ok h h1

theorem fixFile_wrote {st : ReadState}
    (h : (fixFile st).wrote = true) : (fixFile st).after ≠ st := by
  cases st with
  | err m => simp [fixFile] at h
  | ok c =>
    rw [fixFile_ok_def] at h ⊢
    by_cases hne : runRules steps2 c ≠ c
    · simp only [if_pos hne]
      intro hcontra
      exact hne (by injection hcontra)
    · simp [if_neg hne] at h

/-- Claim C2: a file whose content contains none of the old-path patterns
is left byte-identical, not written and not reported; and a write happens
only when the final content differs from the originally-read content (in
both scripts). -/
theorem C2_noop_preservation :
    (∀ c : Str, patternFreeFor steps1 c →
      fixImportsInFile (ReadState.ok c) = ⟨ReadState.ok c, false, false, false⟩) ∧
    (∀ c : Str, patternFreeFor steps2 c →
      fixFile (ReadState.ok c) = ⟨ReadState.ok c, false, false, false⟩) ∧
    (∀ st : ReadState, (fixImportsInFile st).wrote = true →
      (fixImportsInFile st).after ≠ st) ∧
    (∀ st : ReadState, (fixFile st).wrote = true → (fixFile st).after ≠ st) ∧
    (∀ files path, (∀ st, (path, st) ∈ files →
        (fixImportsInFile st).reportedFixed = false) →
      path ∉ (script1Main files).fixedPaths) ∧
    (∀ files path, (∀ st, (path, st) ∈ files →
        (script2Entry (path, st)).2.reportedFixed = false) →
      path ∉ (script2Main files).fixedPaths) := by
  refine ⟨fun c h => fixImportsInFile_noop h, fun c h => fixFile_noop h,
    fun st h => fixImportsInFile_wrote h, fun st h => fixFile_wrote h, ?_, ?_⟩
  · intro files path h hmem
    obtain ⟨st, hst, hfix⟩ := mem_fixedPaths1.mp hmem
    rw [h st hst] at hfix
    exact Bool.false_ne_true hfix
  · intro files path h hmem
    obtain ⟨st, hst, hfix⟩ := mem_fixedPaths2.mp hmem
    rw [h st hst] at hfix
    exact Bool.false_ne_true hfix

/-- Witness for C2 at concrete inputs. -/
theorem C2_noop_preservation_witness :
    fixImportsInFile (ReadState.ok (("export default x").data)) =
      ⟨ReadState.ok (("export default x").data), false, false, false⟩ ∧
    fixFile (ReadState.ok (("export default x").data)) =
      ⟨ReadState.ok (("export default x").data), false, false, false⟩ ∧
    (fixImportsInFile (ReadState.ok (impStr qS (("@/lib/feed-cache"))))).after ≠
      ReadState.ok (impStr qS (("@/lib/feed-cache"))) ∧
    (fixFile (ReadState.ok (impStr qS (("../../../lib/solana-connection-server"))))).after ≠
      ReadState.ok (impStr qS (("../../../lib/solana-connection-server"))) ∧
    (("a.ts").data) ∉
      (script1Main [((("a.ts").data), ReadState.ok (("export default x").data))]).fixedPaths ∧
    (("a.ts").data) ∉
      (script2Main [((("a.ts").data), ReadState.ok (("export default x").data))]).fixedPaths := by
  refine ⟨C2_noop_preservation.1 _ (by decide), C2_noop_preservation.2.1 _ (by decide),
    C2_noop_preservation.2.2.1 _ (by decide), C2_noop_preservation.2.2.2.1 _ (by decide),
    C2_noop_preservation.2.2.2.2.1 _ _ ?_, C2_noop_preservation.2.2.2.2.2 _ _ ?_⟩
  · intro st hst
    have h1 := List.mem_singleton.mp hst
    injection h1 with h2 h3
    subst h3
    decide
  · intro st hst
    have h1 := List.mem_singleton.mp hst
    injection h1 with h2 h3
    subst h3
    decide

/-- Counterexample to claim C3 as stated: final-import-fix.py rewrites a
double-quoted import to a single-quoted one, so the original quote style is
not preserved there. -/
theorem C3_counterexample :
    runRules steps2 (impStr2 qD qD (("../../../lib/solana-connection-server"))) =
      impStr qS (("@/lib/solana/solana-connection-server")) ∧
    impStr qS (("@/lib/solana/solana-connection-server")) ≠
      impStr qD (("@/lib/solana/solana-connection-server")) := by decide

/-- Amended claim C3: both quote styles are matched and rewritten to the
new path by both scripts; fix-imports.py preserves the quote style of each
rewritten import, while final-import-fix.py always produces a
single-quoted import regardless of the original quote style. -/
theorem C3_quoting_amended :
    (∀ en ∈ IMPORT_MAP,
      replaceAllM [impStr qS en.1] (impStr qS en.2) (impStr qS en.1) = impStr qS en.2 ∧
      replaceAllM [impStr qD en.1] (impStr qD en.2) (impStr qD en.1) = impStr qD en.2) ∧
    (∀ en ∈ FIXES,
      runRules steps2 (impStr2 qS qS en.1) = impStr qS en.2 ∧
      runRules steps2 (impStr2 qD qD en.1) = impStr qS en.2) := by decide

/-- Witness for the amended C3 at the first rule of each table. -/
theorem C3_quoting_amended_witness :
    replaceAllM [impStr qS (("@/lib/feed-cache"))] (impStr qS (("@/lib/caching/feed-cache")))
        (impStr qS (("@/lib/feed-cache"))) = impStr qS (("@/lib/caching/feed-cache")) ∧
    runRules steps2 (impStr2 qD qD (("../../../lib/solana-connection-server"))) =
      impStr qS (("@/lib/solana/solana-connection-server")) :=
  ⟨(C3_quoting_amended.1 ((("@/lib/feed-cache"), ("@/lib/caching/feed-cache")))
      (by decide)).1,
   (C3_quoting_amended.2 ((("../../../lib/solana-connection-server"),
      ("@/lib/solana/solana-connection-server"))) (by decide)).2⟩

theorem script1Main_outcomes (files : List (Str × ReadState)) :
    (script1Main files).outcomes = files.map fun f => (f.1, fixImportsInFile f.2) := rfl

theorem script2Main_outcomes (files : List (Str × ReadState)) :
    (script2Main files).outcomes = files.map script2Entry := rfl

theorem script2Entry_err {path m : Str} (hex : excludedPath path = false) :
    script2Entry (path, ReadState.err m) =
      (path, ⟨ReadState.err m, false, false, true⟩) := by
  simp only [script2Entry, hex, Bool.false_eq_true, if_false]
  rfl

theorem script1_errorPaths_mem {files : List (Str × ReadState)} {path m : Str}
    (h : (path, ReadState.err m) ∈ files) :
    path ∈ (script1Main files).errorPaths := by
  apply List.mem_map.mpr
  refine ⟨(path, fixImportsInFile (ReadState.err m)), List.mem_filter.mpr
    ⟨List.mem_map.mpr ⟨(path, ReadState.err m), h, rfl⟩, rfl⟩, rfl⟩

theorem script2_errorPaths_mem {files : List (Str × ReadState)} {path m : Str}
    (hex : excludedPath path = false) (h : (path, ReadState.err m) ∈ files) :
    path ∈ (script2Main files).errorPaths := by
  apply List.mem_map.mpr
  refine ⟨script2Entry (path, ReadState.err m), List.mem_filter.mpr
    ⟨List.mem_map.mpr ⟨(path, ReadState.err m), h, rfl⟩, ?_⟩, ?_⟩
  · rw [script2Entry_err hex]
  · rw [script2Entry_err hex]

/-- Claim C4: a per-file exception is absorbed inside the per-file
function — the file keeps its state, an error line is printed for it, and
every file before and after it in the traversal is processed exactly as it
would have been on its own. -/
theorem C4_partial_failure_isolation (pre post : List (Str × ReadState)) (path m : Str) :
    (script1Main (pre ++ (path, ReadState.err m) :: post)).outcomes =
      (script1Main pre).outcomes ++
        ((path, ⟨ReadState.err m, false, false, true⟩) :: (script1Main post).outcomes) ∧
    path ∈ (script1Main (pre ++ (path, ReadState.err m) :: post)).errorPaths ∧
    (excludedPath path = false →
      (script2Main (pre ++ (path, ReadState.err m) :: post)).outcomes =
        (script2Main pre).outcomes ++
          ((path, ⟨ReadState.err m, false, false, true⟩) :: (script2Main post).outcomes) ∧
      path ∈ (script2Main (pre ++ (path, ReadState.err m) :: post)).errorPaths) := by
  have hmid : (path, ReadState.err m) ∈ pre ++ (path, ReadState.err m) :: post :=
    List.mem_append.mpr (Or.inr (List.mem_cons_self _ _))
  refine ⟨?_, ?_, fun hex => ⟨?_, ?_⟩⟩
  · rw [script1Main_outcomes, script1Main_outcomes, script1Main_outcomes,
      List.map_append, List.map_cons]
    rfl
  · exact script1_errorPaths_mem hmid
  · rw [script2Main_outcomes, script2Main_outcomes, script2Main_outcomes,
      List.map_append, List.map_cons, script2Entry_err hex]
  · exact script2_errorPaths_mem hex hmid

/-- Witness for C4 at a concrete run. -/
theorem C4_partial_failure_isolation_witness :
    (script1Main [((("a.ts").data), ReadState.err (("boom").data)),
        ((("b.ts").data), ReadState.ok (("x").data))]).outcomes =
      (script1Main []).outcomes ++
        (((("a.ts").data), ⟨ReadState.err (("boom").data), false, false, true⟩) ::
          (script1Main [((("b.ts").data), ReadState.ok (("x").data))]).outcomes) ∧
    (("a.ts").data) ∈ (script1Main [((("a.ts").data), ReadState.err (("boom").data)),
        ((("b.ts").data), ReadState.ok (("x").data))]).errorPaths ∧
    (script2Main [((("a.ts").data), ReadState.err (("boom").data)),
        ((("b.ts").data), ReadState.ok (("x").data))]).outcomes =
      (script2Main []).outcomes ++
        (((("a.ts").data), ⟨ReadState.err (("boom").data), false, false, true⟩) ::
          (script2Main [((("b.ts").data), ReadState.ok (("x").data))]).outcomes) ∧
    (("a.ts").data) ∈ (script2Main [((("a.ts").data), ReadState.err (("boom").data)),
        ((("b.ts").data), ReadState.ok (("x").data))]).errorPaths := by
  have h := C4_partial_failure_isolation []
    [((("b.ts").data), ReadState.ok (("x").data))] (("a.ts").data) (("boom").data)
  exact ⟨h.1, h.2.1, (h.2.2 (by decide)).1, (h.2.2 (by decide)).2⟩

/-- Whether a file's read state is the error case. -/
def isErrState : ReadState → Bool
  | ReadState.ok _ => false
  | ReadState.err _ => true

theorem reportedError_fixImports (st : ReadState) :
    (fixImportsInFile st).reportedError = isErrState st := by
  cases st <;> rfl

theorem reportedError_fixFile (st : ReadState) :
    (fixFile st).reportedError = isErrState st := by
  cases st with
  | err m => rfl
  | ok c =>
    rw [fixFile_ok_def]
    by_cases hne : runRules steps2 c ≠ c
    · simp [if_pos hne, isErrState]
    · simp [if_neg hne, isErrState]

theorem reportedError_script2Entry (f : Str × ReadState) :
    (script2Entry f).2.reportedError = (!excludedPath f.1 && isErrState f.2) := by
  by_cases hex : excludedPath f.1
  · simp [script2Entry, hex]
  · simp [script2Entry, hex, reportedError_fixFile]

theorem filter_map_comm {α β : Type} (g : α → β) (p : β → Bool) (l : List α) :
    (l.map g).filter p = (l.filter fun a => p (g a)).map g := by
  induction l with
  | nil => rfl
  | cons a l ih =>
    by_cases h : p (g a)
    · simp only [List.map_cons, List.filter_cons, h, if_true, ih, List.map_cons]
    · simp only [List.map_cons, List.filter_cons, h, Bool.false_eq_true, if_false, ih]

theorem script1_errorPaths (files : List (Str × ReadState)) :
    (script1Main files).errorPaths =
      (files.filter fun f => isErrState f.2).map fun f => f.1 := by
  show (((files.map fun f => (f.1, fixImportsInFile f.2)).filter
      fun en => en.2.reportedError).map fun en => en.1) = _
  rw [filter_map_comm, List.map_map]
  congr 1
  apply List.filter_congr
  intro f _
  exact reportedError_fixImports f.2

theorem script2_errorPaths (files : List (Str × ReadState)) :
    (script2Main files).errorPaths =
      (files.filter fun f => !excludedPath f.1 && isErrState f.2).map fun f => f.1 := by
  show (((files.map script2Entry).filter
      fun en => en.2.reportedError).map fun en => en.1) = _
  rw [filter_map_comm]
  rw [show ((files.filter fun a => (script2Entry a).2.reportedError).map script2Entry).map
        (fun en => en.1) =
      (files.filter fun a => (script2Entry a).2.reportedError).map
        (fun a => (script2Entry a).1) from by rw [List.map_map]; rfl]
  rw [show (files.filter fun a => (script2Entry a).2.reportedError) =
      files.filter fun f => !excludedPath f.1 && isErrState f.2 from
    List.filter_congr fun f _ => reportedError_script2Entry f]
  apply List.map_congr_left
  intro f _
  exact script2Entry_fst f

/-- Counterexample to claim C5 as stated: a run in which the single file
fails and a run in which it is simply unchanged print the very same final
summary, so the summary does not state how many files succeeded versus
failed, nor list the failed paths. -/
theorem C5_counterexample :
    (script1Main [((("a.ts").data),
        ReadState.err (("Permission denied").data))]).summary =
      (script1Main [((("a.ts").data),
        ReadState.ok (("export default x").data))]).summary ∧
    (script1Main [((("a.ts").data),
        ReadState.err (("Permission denied").data))]).errorPaths = [(("a.ts").data)] ∧
    (script1Main [((("a.ts").data),
        ReadState.ok (("export default x").data))]).errorPaths = [] ∧
    (script2Main [((("a.ts").data),
        ReadState.err (("Permission denied").data))]).summary =
      (script2Main [((("a.ts").data),
        ReadState.ok (("export default x").data))]).summary ∧
    (script2Main [((("a.ts").data),
        ReadState.err (("Permission denied").data))]).errorPaths = [(("a.ts").data)] ∧
    (script2Main [((("a.ts").data),
        ReadState.ok (("export default x").data))]).errorPaths = [] := by decide

/-- Amended claim C5: the final summary states only the number of modified
files (out of the number traversed, for fix-imports.py); failures are
reported as they happen by per-file error lines, whose paths are exactly
the files that failed (and, for final-import-fix.py, were not excluded). -/
theorem C5_summary_amended (files : List (Str × ReadState)) :
    (script1Main files).summary =
      summaryLine1 (script1Main files).fixedCount (script1Main files).totalCount ∧
    (script1Main files).errorPaths =
      (files.filter fun f => isErrState f.2).map (fun f => f.1) ∧
    (script2Main files).summary = summaryLine2 (script2Main files).fixedCount ∧
    (script2Main files).errorPaths =
      (files.filter fun f => !excludedPath f.1 && isErrState f.2).map fun f => f.1 :=
  ⟨rfl, script1_errorPaths files, rfl, script2_errorPaths files⟩

/-- Counterexample to claim C6 as stated: a run with a failed file still
exits with code 0, and nothing is reported to standard error. -/
theorem C6_exit_code_counterexample :
    (script1Main [((("a.ts").data), ReadState.err (("boom").data))]).errorPaths ≠ [] ∧
    (script1Main [((("a.ts").data), ReadState.err (("boom").data))]).exitCode = 0 ∧
    (script2Main [((("a.ts").data), ReadState.err (("boom").data))]).errorPaths ≠ [] ∧
    (script2Main [((("a.ts").data), ReadState.err (("boom").data))]).exitCode = 0 := by
  decide

/-- Amended claim C6: both scripts always exit with code 0 — main returns
normally whether or not files changed or failed, and neither script calls
sys.exit. -/
theorem C6_exit_code_amended (files : List (Str × ReadState)) :
    (script1Main files).exitCode = 0 ∧ (script2Main files).exitCode = 0 :=
  ⟨rfl, rfl⟩

set_option maxRecDepth 40000 in
/-- Claim C7, the end-to-end example: the deep relative
solana-connection-server import is rewritten to its aliased new path by
final-import-fix.py; the feed-cache import is rewritten to its caching/
path by fix-imports.py; and a file containing neither pattern is unchanged
and excluded from the modified-file report of both scripts. -/
theorem C7_end_to_end :
    runRules steps2 ((("import x from ").data ++
        qS :: (("../../../lib/solana-connection-server")).data ++ qS :: ((";")).data)) =
      (("import x from ").data ++
        qS :: (("@/lib/solana/solana-connection-server")).data ++ qS :: ((";")).data) ∧
    runRules steps1 ((("import y from ").data ++
        qS :: (("@/lib/feed-cache")).data ++ qS :: ((";")).data)) =
      (("import y from ").data ++
        qS :: (("@/lib/caching/feed-cache")).data ++ qS :: ((";")).data) ∧
    fixImportsInFile (ReadState.ok (("export const n = 1;").data)) =
      ⟨ReadState.ok (("export const n = 1;").data), false, false, false⟩ ∧
    fixFile (ReadState.ok (("export const n = 1;").data)) =
      ⟨ReadState.ok (("export const n = 1;").data), false, false, false⟩ ∧
    (script1Main [((("a.ts").data),
      ReadState.ok (("export const n = 1;").data))]).fixedPaths = [] ∧
    (script2Main [((("a.ts").data),
      ReadState.ok (("export const n = 1;").data))]).fixedPaths = [] := by decide

/-- Claim C8: a file whose path lies inside a node_modules or .next
directory is skipped by final-import-fix.py before any read or write,
whatever its content is. -/
theorem C8_exclusion_respected (path : Str) (st : ReadState) (pre post : Str)
    (h : path = pre ++ (("/node_modules/").data) ++ post ∨
         path = pre ++ (("/.next/").data) ++ post) :
    excludedPath path = true ∧
    script2Entry (path, st) = (path, ⟨st, false, false, false⟩) := by
  have hex : excludedPath path = true := by
    rcases h with h | h
    · have h1 : (("node_modules").data) <:+: (("/node_modules/").data) := by decide
      have h2 : (("/node_modules/").data) <:+: path := ⟨pre, post, h.symm⟩
      unfold excludedPath
      rw [strOccursB_iff.mpr (h1.trans h2)]
      rfl
    · have h1 : ((".next").data) <:+: (("/.next/").data) := by decide
      have h2 : (("/.next/").data) <:+: path := ⟨pre, post, h.symm⟩
      unfold excludedPath
      rw [strOccursB_iff.mpr (h1.trans h2)]
      simp
  exact ⟨hex, by simp [script2Entry, hex]⟩

/-- Witness for C8 at a concrete path inside node_modules. -/
theorem C8_exclusion_respected_witness :
    excludedPath (("src/node_modules/a.ts").data) = true ∧
    script2Entry ((("src/node_modules/a.ts").data),
        ReadState.ok (impStr qS (("../../../lib/solana-connection-server")))) =
      ((("src/node_modules/a.ts").data),
       ⟨ReadState.ok (impStr qS (("../../../lib/solana-connection-server"))),
        false, false, false⟩) :=
  C8_exclusion_respected (("src/node_modules/a.ts").data)
    (ReadState.ok (impStr qS (("../../../lib/solana-connection-server"))))
    (("src").data) (("a.ts").data) (Or.inl (by decide))

set_option maxRecDepth 40000 in
/-- Claim C9, sequential rule chaining in fix-imports.py: the
user-history-utils import is first rewritten by the `./user-history-utils`
rule and the result is then rewritten again by the later
`./user/user-history-utils` rule, all within one pass. -/
theorem C9_rule_chaining :
    runRules steps1 ((("import a from ").data ++
        qS :: (("./user-history-utils")).data ++ qS :: ((";")).data)) =
      (("import a from ").data ++
        qS :: (("../user/user-history-utils")).data ++ qS :: ((";")).data) ∧
    runRules steps1 ((("import a from ").data ++
        qS :: (("./user-history-utils")).data ++ qS :: ((";")).data)) ≠
      (("import a from ").data ++
        qS :: (("./user/user-history-utils")).data ++ qS :: ((";")).data) := by decide

set_option maxRecDepth 40000 in
/-- Claim C10, substring-based exclusion: final-import-fix.py skips any
path containing `.next` anywhere, so the regular source file app.next.tsx
is silently excluded even though it is in no build directory and its
content matches a rewrite rule. -/
theorem C10_substring_exclusion :
    excludedPath (("app.next.tsx").data) = true ∧
    strOccursB (("/node_modules/").data) (("app.next.tsx").data) = false ∧
    strOccursB (("/.next/").data) (("app.next.tsx").data) = false ∧
    script2Entry ((("app.next.tsx").data),
        ReadState.ok (impStr qS (("../../../lib/solana-connection-server")))) =
      ((("app.next.tsx").data),
       ⟨ReadState.ok (impStr qS (("../../../lib/solana-connection-server"))),
        false, false, false⟩) ∧
    runRules steps2 (impStr qS (("../../../lib/solana-connection-server"))) ≠
      impStr qS (("../../../lib/solana-connection-server")) := by decide
